import Mathlib

/-!
Shallow embedding of the protein-visualizer job-execution engine:
the HP-lattice energy calculator (src/unnamed/part_015), the simulated
annealing solver (src/lib/solvers/simulated-annealing.ts and
src/lib/solvers/types.ts), the rate limiter (src/unnamed/part_013), the
job record lifecycle writes of the queue service (src/unnamed/part_011),
the retention sweep (src/unnamed/part_012) and the job submission route
(src/app/api/jobs/route.ts).

Numbers: lattice coordinates are integers; the JS energy value, which is
either an integer or Number.POSITIVE_INFINITY, is modelled as WithTop ℤ
with ⊤ standing for +∞.  Timestamps (milliseconds since epoch) are
modelled as ℕ or ℤ as noted at each definition.
-/

namespace ProteinVisualizer

/-- Modelled from the spec: the `Direction` type (`src/lib/types` is not in
the source tree).  The solvers draw from the fixed move alphabet
`["L", "R", "U", "D"]`. -/
inductive Direction where
  | L | R | U | D
deriving DecidableEq, Repr

/-- A lattice position, `{x, y, z}` with integer coordinates. -/
structure Position where
  x : ℤ
  y : ℤ
  z : ℤ
deriving DecidableEq, Repr

/-- Modelled from the spec: `directionToPosition` (`src/lib/utils` in the
repository) maps a move to its unit vector.  The spec's worked examples fix
the convention: moves `[U, R]` place residues at (0,0),(0,1),(1,1) and
`[R, D]` at (0,0),(1,0),(1,-1); so R = +x, L = -x, U = +y, D = -y, with the
z coordinate unused by the 2D solvers. -/
def directionToPosition : Direction → Position
  | .L => ⟨-1, 0, 0⟩
  | .R => ⟨1, 0, 0⟩
  | .U => ⟨0, 1, 0⟩
  | .D => ⟨0, -1, 0⟩

/-- Energy value: an integer or +∞ (`Number.POSITIVE_INFINITY`). -/
abbrev Energy := WithTop ℤ

/-- A conformation as in `src/lib/solvers/types.ts`. -/
structure Conformation where
  sequence : List Char
  directions : List Direction
  energy : Energy
  positions : List Position
deriving DecidableEq, Repr

namespace EnergyCalculator

/-- `EnergyCalculator.calculatePositions` (src/unnamed/part_015, lines
39-61): position 0 is pushed unconditionally at the origin; for
`i = 1 .. sequence.length - 1` the loop adds the unit vector of
`directions[i-1]` to the previous position.  The source indexes the
directions array directly, so only the first `sequence.length - 1` entries
are ever read; a move list shorter than that reads `undefined` in JS, a
case outside this model (theorems carry the length hypothesis). -/
def positionsAux (prev : Position) : List Direction → List Position
  | [] => []
  | d :: rest =>
    let c := directionToPosition d
    let np : Position := ⟨prev.x + c.x, prev.y + c.y, prev.z + c.z⟩
    np :: positionsAux np rest

def calculatePositions (sequence : List Char) (directions : List Direction) :
    List Position :=
  ⟨0, 0, 0⟩ :: positionsAux ⟨0, 0, 0⟩ (directions.take (sequence.length - 1))

/-- `EnergyCalculator.hasSelfIntersection` (src/unnamed/part_015, lines
63-75): walks the list keeping a set of occupied coordinates and reports a
repeat.  The source keys the set by the string `x,y,z`, which is injective
on integer coordinates, so a plain list of seen positions is equivalent. -/
def hasSelfIntersectionAux (occupied : List Position) : List Position → Bool
  | [] => false
  | p :: rest =>
    if p ∈ occupied then true
    else hasSelfIntersectionAux (p :: occupied) rest

def hasSelfIntersection (positions : List Position) : Bool :=
  hasSelfIntersectionAux [] positions

/-- Manhattan distance `|dx| + |dy| + |dz|` as computed in
`calculateContactEnergy`. -/
def manhattanDist (p q : Position) : ℕ :=
  (p.x - q.x).natAbs + (p.y - q.y).natAbs + (p.z - q.z).natAbs

/-- `EnergyCalculator.calculateContactEnergy` (src/unnamed/part_015, lines
77-101): for each `i` with `sequence[i] = 'H'` and each `j` from `i+2` to
`sequence.length - 1` with `sequence[j] = 'H'` and Manhattan distance 1
between the two positions, subtract 1 from the accumulator, starting
from 0. -/
def calculateContactEnergy (sequence : List Char) (positions : List Position) :
    ℤ :=
  (List.range sequence.length).foldl
    (fun energy i =>
      if sequence.getD i 'P' = 'H' then
        (List.range' (i + 2) (sequence.length - (i + 2))).foldl
          (fun e j =>
            if sequence.getD j 'P' = 'H' ∧
                manhattanDist (positions.getD i ⟨0, 0, 0⟩)
                  (positions.getD j ⟨0, 0, 0⟩) = 1 then
              e - 1
            else e)
          energy
      else energy)
    0

/-- `EnergyCalculator.calculateEnergy` (src/unnamed/part_015, lines 11-20). -/
def calculateEnergy (sequence : List Char) (directions : List Direction) :
    Energy :=
  let positions := calculatePositions sequence directions
  if hasSelfIntersection positions then ⊤
  else ((calculateContactEnergy sequence positions : ℤ) : Energy)

/-- `EnergyCalculator.createConformation` (src/unnamed/part_015, lines
25-37). -/
def createConformation (sequence : List Char) (directions : List Direction) :
    Conformation :=
  let positions := calculatePositions sequence directions
  let energy : Energy :=
    if hasSelfIntersection positions then ⊤
    else ((calculateContactEnergy sequence positions : ℤ) : Energy)
  ⟨sequence, directions, energy, positions⟩

end EnergyCalculator

/-- The number of H-H contact pairs as the spec counts them: pairs `(i, j)`
of residue indices with `j ≥ i + 2`, both residues `'H'`, and Manhattan
distance 1 between their positions. -/
def hhContactCount (sequence : List Char) (positions : List Position) : ℕ :=
  ((Finset.range sequence.length ×ˢ Finset.range sequence.length).filter
    (fun p : ℕ × ℕ =>
      p.1 + 2 ≤ p.2 ∧ sequence.getD p.1 'P' = 'H' ∧
        sequence.getD p.2 'P' = 'H' ∧
        EnergyCalculator.manhattanDist (positions.getD p.1 ⟨0, 0, 0⟩)
          (positions.getD p.2 ⟨0, 0, 0⟩) = 1)).card

namespace EnergyCalculator

lemma foldl_sub_count {α : Type} (p : α → Prop) [DecidablePred p] :
    ∀ (l : List α) (init : ℤ),
      l.foldl (fun e j => if p j then e - 1 else e) init
        = init - l.countP (fun j => decide (p j)) := by
  intro l
  induction l with
  | nil => intro init; simp
  | cons a t ih =>
    intro init
    by_cases h : p a
    · simp only [List.foldl_cons, List.countP_cons, h, if_true, ih]
      simp only [decide_True]
      push_cast
      ring
    · simp only [List.foldl_cons, List.countP_cons, h, if_false, ih]
      simp only [decide_False]
      simp

lemma foldl_sub_sum {α : Type} (c : α → ℕ) :
    ∀ (l : List α) (init : ℤ),
      l.foldl (fun e i => e - (c i : ℤ)) init = init - (l.map c).sum := by
  intro l
  induction l with
  | nil => intro init; simp
  | cons a t ih =>
    intro init
    simp only [List.foldl_cons, List.map_cons, List.sum_cons, ih]
    push_cast
    ring

/-- The inner loop count for a fixed `i`. -/
def innerCount (sequence : List Char) (positions : List Position) (i : ℕ) :
    ℕ :=
  if sequence.getD i 'P' = 'H' then
    (List.range' (i + 2) (sequence.length - (i + 2))).countP
      (fun j => decide (sequence.getD j 'P' = 'H' ∧
        manhattanDist (positions.getD i ⟨0, 0, 0⟩)
          (positions.getD j ⟨0, 0, 0⟩) = 1))
  else 0

lemma calculateContactEnergy_eq_sum (sequence : List Char)
    (positions : List Position) :
    calculateContactEnergy sequence positions
      = -(((List.range sequence.length).map
          (innerCount sequence positions)).sum : ℤ) := by
  unfold calculateContactEnergy
  have hbody : ∀ (init : ℤ) (i : ℕ),
      (if sequence.getD i 'P' = 'H' then
        (List.range' (i + 2) (sequence.length - (i + 2))).foldl
          (fun e j =>
            if sequence.getD j 'P' = 'H' ∧
                manhattanDist (positions.getD i ⟨0, 0, 0⟩)
                  (positions.getD j ⟨0, 0, 0⟩) = 1 then
              e - 1
            else e)
          init
      else init) = init - (innerCount sequence positions i : ℤ) := by
    intro init i
    unfold innerCount
    by_cases h : sequence.getD i 'P' = 'H'
    · rw [if_pos h, if_pos h, foldl_sub_count]
    · rw [if_neg h, if_neg h]
      simp
  calc ((List.range sequence.length).foldl
        (fun energy i =>
          if sequence.getD i 'P' = 'H' then
            (List.range' (i + 2) (sequence.length - (i + 2))).foldl
              (fun e j =>
                if sequence.getD j 'P' = 'H' ∧
                    manhattanDist (positions.getD i ⟨0, 0, 0⟩)
                      (positions.getD j ⟨0, 0, 0⟩) = 1 then
                  e - 1
                else e)
              energy
          else energy)
        (0 : ℤ))
      = (List.range sequence.length).foldl
          (fun energy i => energy - (innerCount sequence positions i : ℤ))
          (0 : ℤ) := by
        apply List.foldl_ext
        intro e i _
        exact hbody e i
    _ = 0 - (((List.range sequence.length).map
          (innerCount sequence positions)).sum : ℤ) := by
        rw [foldl_sub_sum]
    _ = -(((List.range sequence.length).map
          (innerCount sequence positions)).sum : ℤ) := by ring

lemma innerCount_eq_count (sequence : List Char) (positions : List Position)
    (i : ℕ) :
    innerCount sequence positions i
      = (List.range sequence.length).countP
          (fun j => decide (i + 2 ≤ j ∧ sequence.getD i 'P' = 'H' ∧
            sequence.getD j 'P' = 'H' ∧
            manhattanDist (positions.getD i ⟨0, 0, 0⟩)
              (positions.getD j ⟨0, 0, 0⟩) = 1)) := by
  by_cases hi : sequence.getD i 'P' = 'H'
  · by_cases hn : i + 2 ≤ sequence.length
    · have hsplit : List.range sequence.length
          = List.range' 0 (i + 2) ++
            List.range' (i + 2) (sequence.length - (i + 2)) := by
        rw [List.range_eq_range']
        rw [show List.range' 0 (i + 2) ++
            List.range' (i + 2) (sequence.length - (i + 2))
            = List.range' 0 (i + 2) ++
              List.range' (0 + (i + 2)) (sequence.length - (i + 2)) by
          rw [Nat.zero_add]]
        rw [List.range'_append_1]
        congr 1
        omega
      rw [hsplit, List.countP_append]
      have hz : (List.range' 0 (i + 2)).countP
          (fun j => decide (i + 2 ≤ j ∧ sequence.getD i 'P' = 'H' ∧
            sequence.getD j 'P' = 'H' ∧
            manhattanDist (positions.getD i ⟨0, 0, 0⟩)
              (positions.getD j ⟨0, 0, 0⟩) = 1)) = 0 := by
        rw [List.countP_eq_zero]
        intro j hj
        simp only [List.mem_range'_1, Nat.zero_add] at hj
        simp only [decide_eq_true_eq]
        intro hc
        omega
      rw [hz, Nat.zero_add]
      unfold innerCount
      rw [if_pos hi]
      apply List.countP_congr
      intro j hj
      simp only [List.mem_range'_1] at hj
      simp only [decide_eq_true_eq]
      constructor
      · intro h
        exact ⟨hj.1, hi, h.1, h.2⟩
      · intro h
        exact ⟨h.2.2.1, h.2.2.2⟩
    · have h0 : sequence.length - (i + 2) = 0 :=
        Nat.sub_eq_zero_of_le (Nat.le_of_not_le hn)
      unfold innerCount
      rw [if_pos hi, h0]
      rw [show List.range' (i + 2) 0 = ([] : List ℕ) from rfl,
        List.countP_nil]
      symm
      rw [List.countP_eq_zero]
      intro j hj
      simp only [List.mem_range] at hj
      simp only [decide_eq_true_eq]
      intro hc
      omega
  · unfold innerCount
    rw [if_neg hi]
    symm
    rw [List.countP_eq_zero]
    intro j _
    simp only [decide_eq_true_eq]
    intro hc
    exact hi hc.2.1

lemma list_range_map_sum (c : ℕ → ℕ) :
    ∀ n, ((List.range n).map c).sum = ∑ i ∈ Finset.range n, c i := by
  intro n
  induction n with
  | zero => simp
  | succ m ih =>
    rw [List.range_succ, List.map_append, List.sum_append,
      Finset.sum_range_succ, ih]
    simp

lemma hhContactCount_eq_sum (sequence : List Char)
    (positions : List Position) :
    (hhContactCount sequence positions : ℕ)
      = ((List.range sequence.length).map
          (innerCount sequence positions)).sum := by
  unfold hhContactCount
  rw [list_range_map_sum]
  have hcard := (Finset.sum_boole (α := ℕ)
    (fun p : ℕ × ℕ =>
      p.1 + 2 ≤ p.2 ∧ sequence.getD p.1 'P' = 'H' ∧
        sequence.getD p.2 'P' = 'H' ∧
        manhattanDist (positions.getD p.1 ⟨0, 0, 0⟩)
          (positions.getD p.2 ⟨0, 0, 0⟩) = 1)
    (Finset.range sequence.length ×ˢ Finset.range sequence.length)).symm
  rw [Nat.cast_id] at hcard
  rw [hcard, Finset.sum_product]
  apply Finset.sum_congr rfl
  intro i _
  have hsb := Finset.sum_boole (α := ℕ)
    (fun j : ℕ =>
      i + 2 ≤ j ∧ sequence.getD i 'P' = 'H' ∧
        sequence.getD j 'P' = 'H' ∧
        manhattanDist (positions.getD i ⟨0, 0, 0⟩)
          (positions.getD j ⟨0, 0, 0⟩) = 1)
    (Finset.range sequence.length)
  rw [Nat.cast_id] at hsb
  rw [hsb, ← Nat.count_eq_card_filter_range, Nat.count,
    innerCount_eq_count]

/-- `hasSelfIntersectionAux seen ps` is `false` exactly when `ps` has no
internal repeat and avoids everything in `seen`. -/
lemma hasSelfIntersectionAux_eq_false (ps : List Position) :
    ∀ seen : List Position,
      hasSelfIntersectionAux seen ps = false
        ↔ ps.Nodup ∧ ∀ p ∈ ps, p ∉ seen := by
  induction ps with
  | nil => intro seen; simp [hasSelfIntersectionAux]
  | cons p rest ih =>
    intro seen
    unfold hasSelfIntersectionAux
    by_cases hmem : p ∈ seen
    · simp only [hmem, if_true]
      constructor
      · intro h; cases h
      · intro h
        exact absurd hmem (h.2 p (List.mem_cons_self p rest))
    · simp only [hmem, if_false]
      rw [ih (p :: seen)]
      simp only [List.nodup_cons, List.mem_cons]
      constructor
      · rintro ⟨hnd, havoid⟩
        refine ⟨⟨fun hp => ?_, hnd⟩, ?_⟩
        · exact (havoid p hp) (Or.inl rfl)
        · intro q hq
          rcases hq with rfl | hq
          · exact hmem
          · intro hqs
            exact (havoid q hq) (Or.inr hqs)
      · rintro ⟨⟨hpn, hnd⟩, havoid⟩
        refine ⟨hnd, ?_⟩
        intro q hq
        intro hq'
        rcases hq' with rfl | hq'
        · exact hpn hq
        · exact (havoid q (Or.inr hq)) hq'

lemma hasSelfIntersection_eq_false_iff (ps : List Position) :
    hasSelfIntersection ps = false ↔ ps.Nodup := by
  unfold hasSelfIntersection
  rw [hasSelfIntersectionAux_eq_false]
  simp

lemma calculateEnergy_of_nodup (sequence : List Char)
    (directions : List Direction)
    (h : (calculatePositions sequence directions).Nodup) :
    calculateEnergy sequence directions
      = ((calculateContactEnergy sequence
          (calculatePositions sequence directions) : ℤ) : Energy) := by
  unfold calculateEnergy
  rw [if_neg]
  rw [Bool.not_eq_true, hasSelfIntersection_eq_false_iff]
  exact h

end EnergyCalculator

/-- C1: for a self-avoiding conformation the energy is the negated number
of H-H contact pairs `(i, j)` with `j ≥ i + 2` and Manhattan distance 1;
hence the energy of every feasible conformation is a non-positive integer;
and the straight-line example `HPHPH` with moves `[R, R, R, R]` has
energy 0.  The move list is assumed long enough for the chain
(`length ≥ sequence.length - 1`), as the spec's conformation data model
requires. -/
theorem C1_contact_energy :
    (∀ (sequence : List Char) (directions : List Direction),
      sequence.length ≤ directions.length + 1 →
      (EnergyCalculator.calculatePositions sequence directions).Nodup →
      EnergyCalculator.calculateEnergy sequence directions
        = ((-(hhContactCount sequence
            (EnergyCalculator.calculatePositions sequence directions) : ℤ)
            : ℤ) : Energy) ∧
      EnergyCalculator.calculateEnergy sequence directions
        ≤ (((0 : ℤ)) : Energy)) ∧
    EnergyCalculator.calculateEnergy ['H', 'P', 'H', 'P', 'H']
      [.R, .R, .R, .R] = (((0 : ℤ)) : Energy) := by
  constructor
  · intro sequence directions _ hnd
    have heq : EnergyCalculator.calculateEnergy sequence directions
        = ((-(hhContactCount sequence
            (EnergyCalculator.calculatePositions sequence directions) : ℤ)
            : ℤ) : Energy) := by
      rw [EnergyCalculator.calculateEnergy_of_nodup sequence directions hnd]
      rw [EnergyCalculator.calculateContactEnergy_eq_sum]
      rw [← EnergyCalculator.hhContactCount_eq_sum]
    refine ⟨heq, ?_⟩
    rw [heq]
    rw [WithTop.coe_le_coe]
    simp
  · decide

/-- C1 witness: the spec's own example `HHH` with moves `[U, R]` is a
self-avoiding conformation, and the theorem applies to it. -/
theorem C1_contact_energy_witness :
    ((['H', 'H', 'H'] : List Char).length ≤ ([.U, .R] : List Direction).length + 1 ∧
      (EnergyCalculator.calculatePositions ['H', 'H', 'H'] [.U, .R]).Nodup) ∧
    (EnergyCalculator.calculateEnergy ['H', 'H', 'H'] [.U, .R]
        = ((-(hhContactCount ['H', 'H', 'H']
            (EnergyCalculator.calculatePositions ['H', 'H', 'H'] [.U, .R]) : ℤ)
            : ℤ) : Energy) ∧
      EnergyCalculator.calculateEnergy ['H', 'H', 'H'] [.U, .R]
        ≤ (((0 : ℤ)) : Energy)) :=
  ⟨⟨by decide, by decide⟩,
    C1_contact_energy.1 ['H', 'H', 'H'] [.U, .R] (by decide) (by decide)⟩

/-- C2: the energy is +∞ exactly when two residues share a lattice
coordinate — a finite energy is returned exactly for self-avoiding walks —
and `createConformation` stores the same energy value. -/
theorem C2_infinite_iff_self_intersecting :
    ∀ (sequence : List Char) (directions : List Direction),
      sequence.length ≤ directions.length + 1 →
      (EnergyCalculator.calculateEnergy sequence directions = ⊤
        ↔ ¬ (EnergyCalculator.calculatePositions sequence directions).Nodup)
      ∧ (EnergyCalculator.createConformation sequence directions).energy
          = EnergyCalculator.calculateEnergy sequence directions := by
  intro sequence directions _
  constructor
  · unfold EnergyCalculator.calculateEnergy
    by_cases h : EnergyCalculator.hasSelfIntersection
        (EnergyCalculator.calculatePositions sequence directions)
    · simp only [h, if_true, true_iff]
      intro hnd
      rw [← EnergyCalculator.hasSelfIntersection_eq_false_iff] at hnd
      rw [h] at hnd
      cases hnd
    · simp only [h]
      rw [Bool.not_eq_true] at h
      rw [EnergyCalculator.hasSelfIntersection_eq_false_iff] at h
      simp [h]
  · rfl

/-- C2 witness: the moves `[L, R]` fold the chain back onto the origin, so
the energy is +∞; the theorem applies at this input. -/
theorem C2_infinite_iff_self_intersecting_witness :
    (['H', 'H', 'H'] : List Char).length
        ≤ ([.L, .R] : List Direction).length + 1 ∧
    ((EnergyCalculator.calculateEnergy ['H', 'H', 'H'] [.L, .R] = ⊤
        ↔ ¬ (EnergyCalculator.calculatePositions
              ['H', 'H', 'H'] [.L, .R]).Nodup)
      ∧ (EnergyCalculator.createConformation ['H', 'H', 'H'] [.L, .R]).energy
          = EnergyCalculator.calculateEnergy ['H', 'H', 'H'] [.L, .R]) :=
  ⟨by decide,
    C2_infinite_iff_self_intersecting ['H', 'H', 'H'] [.L, .R] (by decide)⟩

/-! ### Simulated annealing solver

`src/lib/solvers/types.ts` (BaseSolver) and
`src/lib/solvers/simulated-annealing.ts`.

All stochastic choices come from ambient `Math.random()` calls: we thread
them as an explicit `RandomStream`.  `Math.floor(Math.random() * n)` is an
arbitrary value in `[0, n)`, modelled as an arbitrary natural taken mod
`n`.  The floating-point temperature enters the algorithm only through two
comparisons per iteration (`temperature > 0` in `acceptMove` and
`temperature < this.finalTemperature` for early termination) and through
the Metropolis draw `Math.random() < Math.exp((cur - new) / T)`; the model
carries the outcomes of those comparisons in the per-iteration oracle.
When the neighbor energy is `+∞` the Metropolis comparison is
`Math.random() < 0` (or `< NaN` when the current energy is also `+∞`) and
is always false in JS; that determined case is encoded directly in
`acceptMove`. -/

/-- Per-iteration random/temperature outcomes drawn by the source's loop
body. -/
structure IterOracle where
  neighborIdxPick : ℕ
  neighborDirPick : ℕ
  acceptBit : Bool
  tempPositive : Bool
  tempBelowFinal : Bool
deriving DecidableEq, Repr

/-- The ambient `Math.random()` stream: one pick per residue for the
initial conformation, and one `IterOracle` per loop iteration. -/
structure RandomStream where
  initPick : ℕ → ℕ
  iter : ℕ → IterOracle

/-- `SimulatedAnnealingParameters` (src/lib/solvers/types.ts, lines
28-42): `maxIterations`, `sequence` and the optional `initialDirections`
from `SolverParameters`, plus the temperature schedule fields.  There is
no random-seed field.  The three temperature fields are carried as
rationals; their float arithmetic reaches the algorithm only through the
oracle's comparison outcomes (see above).  `coolingRate` is stored by the
source constructor but never read by `updateTemperature`, which recomputes
its cooling factor from the other fields. -/
structure SAParams where
  sequence : List Char
  maxIterations : ℕ
  initialDirections : Option (List Direction) := none
  initialTemperature : ℚ := 100
  finalTemperature : ℚ := 1 / 100
  coolingRate : ℚ := 95 / 100
deriving DecidableEq

/-- An `energyHistory` sample `{iteration, energy, bestEnergy}`.  The
source also records the float temperature, which is a deterministic
function of the parameters and the iteration index and is outside this
model. -/
structure HistoryEntry where
  iteration : ℕ
  energy : Energy
  bestEnergy : Energy
deriving DecidableEq, Repr

/-- `SolverResult` (src/lib/solvers/types.ts, lines 16-26) without
`convergenceTime`, which is wall-clock time (`Date.now()` differences) and
outside the model. -/
structure SolverResult where
  bestConformation : Conformation
  energyHistory : List HistoryEntry
  totalIterations : ℕ
deriving DecidableEq, Repr

namespace BaseSolver

/-- The fixed move alphabet used by the solvers. -/
def possibleDirections : List Direction := [.L, .R, .U, .D]

/-- `BaseSolver.generateRandomDirections` (src/lib/solvers/types.ts, lines
55-65): one uniform pick out of the four directions per chain step. -/
def generateRandomDirections (sequence : List Char) (pick : ℕ → ℕ) :
    List Direction :=
  (List.range (sequence.length - 1)).map
    (fun i => possibleDirections.getD (pick i % 4) .L)

end BaseSolver

namespace SimulatedAnnealingSolver

/-- `SimulatedAnnealingSolver.generateNeighbor`
(src/lib/solvers/simulated-annealing.ts, lines 90-104): copy the move
list, choose a random index, and replace the move there by a uniformly
chosen different direction.  For a chain of length ≥ 2 the move list is
non-empty; the degenerate empty-move-list case (where JS would extend the
array) is outside the model. -/
def generateNeighbor (sequence : List Char) (conf : Conformation)
    (idxPick dirPick : ℕ) : Conformation :=
  let randomIndex := idxPick % conf.directions.length
  let currentDirection := conf.directions.getD randomIndex .L
  let availableDirections :=
    BaseSolver.possibleDirections.filter (fun d => d ≠ currentDirection)
  let newDirection :=
    availableDirections.getD (dirPick % availableDirections.length) .L
  EnergyCalculator.createConformation sequence
    (conf.directions.set randomIndex newDirection)

/-- `SimulatedAnnealingSolver.acceptMove`
(src/lib/solvers/simulated-annealing.ts, lines 106-119).  A strictly
better neighbor is always accepted; otherwise, with positive temperature,
the Metropolis draw decides — and that draw is identically false when the
neighbor energy is `+∞` (see the section comment). -/
def acceptMove (currentEnergy newEnergy : Energy)
    (tempPositive acceptBit : Bool) : Bool :=
  if newEnergy < currentEnergy then true
  else if tempPositive then
    if newEnergy = ⊤ then false else acceptBit
  else false

/-- Loop state: the current conformation, the best-so-far conformation and
the accumulated (reversed) energy history. -/
structure SAState where
  current : Conformation
  best : Conformation
  history : List HistoryEntry
deriving DecidableEq

/-- One iteration of the `solve` loop body
(src/lib/solvers/simulated-annealing.ts, lines 36-72): generate a
neighbor, Metropolis-accept it, update the global best on strict
improvement, and sample the energy history every 10 iterations. -/
def saStep (sequence : List Char) (o : IterOracle) (iteration : ℕ)
    (st : SAState) : SAState :=
  let neighbor :=
    generateNeighbor sequence st.current o.neighborIdxPick o.neighborDirPick
  if acceptMove st.current.energy neighbor.energy o.tempPositive
      o.acceptBit then
    let best := if neighbor.energy < st.best.energy then neighbor else st.best
    ⟨neighbor, best,
      if iteration % 10 = 0 then
        ⟨iteration, neighbor.energy, best.energy⟩ :: st.history
      else st.history⟩
  else
    ⟨st.current, st.best,
      if iteration % 10 = 0 then
        ⟨iteration, st.current.energy, st.best.energy⟩ :: st.history
      else st.history⟩

/-- The iteration loop: `fuel` iterations remain, `iteration` is the
1-based index; after the body, the loop breaks early when the cooled
temperature has fallen below `finalTemperature` (the oracle's
`tempBelowFinal` outcome). -/
def saLoop (sequence : List Char) (s : ℕ → IterOracle) :
    ℕ → ℕ → SAState → SAState
  | _, 0, st => st
  | iteration, fuel + 1, st =>
    let st' := saStep sequence (s iteration) iteration st
    if (s iteration).tempBelowFinal then st'
    else saLoop sequence s (iteration + 1) fuel st'

/-- `initializeConformation`
(src/lib/solvers/simulated-annealing.ts, lines 85-88): always a freshly
generated random conformation.  Note that `parameters.initialDirections`
is never read by this solver. -/
def saInit (p : SAParams) (r : RandomStream) : Conformation :=
  EnergyCalculator.createConformation p.sequence
    (BaseSolver.generateRandomDirections p.sequence r.initPick)

/-- `SimulatedAnnealingSolver.solve`
(src/lib/solvers/simulated-annealing.ts, lines 17-83): initialize, record
the iteration-0 history entry, run the loop, and return the best
conformation, the history, and `totalIterations := this.maxIterations`
verbatim. -/
def solve (p : SAParams) (r : RandomStream) : SolverResult :=
  let current := saInit p r
  let st0 : SAState :=
    ⟨current, current, [⟨0, current.energy, current.energy⟩]⟩
  let stF := saLoop p.sequence r.iter 1 p.maxIterations st0
  ⟨stF.best, stF.history.reverse, p.maxIterations⟩

end SimulatedAnnealingSolver

namespace SimulatedAnnealingSolver

/-- A conformation is well-formed for `sequence` when it was built by
`createConformation` (as every conformation in a solver run is). -/
def isConf (sequence : List Char) (c : Conformation) : Prop :=
  ∃ ds, c = EnergyCalculator.createConformation sequence ds

lemma createConformation_energy_ne_top (sequence : List Char)
    (ds : List Direction) :
    (EnergyCalculator.createConformation sequence ds).energy ≠ ⊤
      ↔ EnergyCalculator.hasSelfIntersection
          (EnergyCalculator.createConformation sequence ds).positions
        = false := by
  unfold EnergyCalculator.createConformation
  by_cases h : EnergyCalculator.hasSelfIntersection
      (EnergyCalculator.calculatePositions sequence ds)
  · simp [h]
  · simp [h]

lemma saStep_best_le (sequence : List Char) (o : IterOracle)
    (iteration : ℕ) (st : SAState) :
    (saStep sequence o iteration st).best.energy ≤ st.best.energy := by
  dsimp only [saStep]
  split
  · split
    · exact le_of_lt (by assumption)
    · exact le_refl _
  · exact le_refl _

lemma saStep_isConf (sequence : List Char) (o : IterOracle)
    (iteration : ℕ) (st : SAState)
    (h : isConf sequence st.current ∧ isConf sequence st.best) :
    isConf sequence (saStep sequence o iteration st).current ∧
      isConf sequence (saStep sequence o iteration st).best := by
  dsimp only [saStep]
  split
  · refine ⟨⟨_, rfl⟩, ?_⟩
    split
    · exact ⟨_, rfl⟩
    · exact h.2
  · exact h

lemma saLoop_best_le (sequence : List Char) (s : ℕ → IterOracle) :
    ∀ (fuel iteration : ℕ) (st : SAState),
      (saLoop sequence s iteration fuel st).best.energy
        ≤ st.best.energy := by
  intro fuel
  induction fuel with
  | zero => intro it st; simp [saLoop]
  | succ n ih =>
    intro it st
    rw [saLoop]
    split
    · exact saStep_best_le sequence (s it) it st
    · exact le_trans (ih (it + 1) (saStep sequence (s it) it st))
        (saStep_best_le sequence (s it) it st)

lemma saLoop_isConf (sequence : List Char) (s : ℕ → IterOracle) :
    ∀ (fuel iteration : ℕ) (st : SAState),
      isConf sequence st.current ∧ isConf sequence st.best →
      isConf sequence (saLoop sequence s iteration fuel st).current ∧
        isConf sequence (saLoop sequence s iteration fuel st).best := by
  intro fuel
  induction fuel with
  | zero => intro it st h; simpa [saLoop] using h
  | succ n ih =>
    intro it st h
    rw [saLoop]
    split
    · exact saStep_isConf sequence (s it) it st h
    · exact ih (it + 1) (saStep sequence (s it) it st)
        (saStep_isConf sequence (s it) it st h)

end SimulatedAnnealingSolver

/-- A fixed per-iteration oracle: index/direction picks 0, Metropolis draw
rejecting, positive temperature, no early stop. -/
def noOpOracle : IterOracle := ⟨0, 0, false, true, false⟩

/-- A per-iteration oracle whose cooled temperature is already below the
final temperature, so the loop breaks after its first iteration. -/
def earlyStopOracle : IterOracle := ⟨0, 0, false, true, true⟩

/-- Stream whose initial picks give the self-intersecting move list
`[R, L, R, L, ...]`. -/
def zigzagStream : RandomStream :=
  ⟨fun i => if i % 2 = 0 then 1 else 0, fun _ => noOpOracle⟩

/-- Stream whose initial picks are all 1, i.e. every initial move is `R`. -/
def steadyStream : RandomStream := ⟨fun _ => 1, fun _ => noOpOracle⟩

/-- Stream whose initial picks are all 0, i.e. every initial move is `L`. -/
def leftStream : RandomStream := ⟨fun _ => 0, fun _ => noOpOracle⟩

/-- Stream that stops the loop at its first iteration. -/
def earlyStopStream : RandomStream := ⟨fun _ => 1, fun _ => earlyStopOracle⟩

/-- Stream agreeing with `steadyStream` on the first initial pick and on no
other value. -/
def steadyTailStream : RandomStream :=
  ⟨fun i => if i < 1 then 1 else 77, fun _ => earlyStopOracle⟩

/-- C3 counterexample: the claim fails as stated.  The initial conformation
is generated randomly with no feasibility check
(src/lib/solvers/simulated-annealing.ts, lines 85-88), so for the
5-residue sequence `HHHHH` (length ≥ 2), one iteration, and a random
stream whose initial picks give the self-intersecting walk `[R, L, R, L]`
and whose single neighbor `[L, L, R, L]` also self-intersects, the run
returns a best conformation with energy +∞ and a self-intersection. -/
theorem C3_counterexample_infeasible_best :
    (['H', 'H', 'H', 'H', 'H'] : List Char).length ≥ 2 ∧
    (SimulatedAnnealingSolver.solve
        { sequence := ['H', 'H', 'H', 'H', 'H'], maxIterations := 1 }
        zigzagStream).bestConformation.energy = ⊤ ∧
    EnergyCalculator.hasSelfIntersection
      (SimulatedAnnealingSolver.solve
        { sequence := ['H', 'H', 'H', 'H', 'H'], maxIterations := 1 }
        zigzagStream).bestConformation.positions = true := by
  refine ⟨by decide, ?_, ?_⟩
  · decide
  · decide

/-- C3 amended: `acceptMove` never accepts a neighbor of energy +∞ (so a
self-intersecting conformation is never adopted as the current or best
state), and whenever the randomly generated initial conformation is
feasible, the returned best conformation has finite energy and no
self-intersection.  (As stated the claim fails only because the random
initial conformation itself may be infeasible and survive as best; see the
counterexample.) -/
theorem C3_no_infeasible_acceptance :
    (∀ (cur new : Energy) (tempPositive acceptBit : Bool),
      SimulatedAnnealingSolver.acceptMove cur new tempPositive acceptBit
          = true → new ≠ ⊤) ∧
    (∀ (p : SAParams) (r : RandomStream),
      (SimulatedAnnealingSolver.saInit p r).energy ≠ ⊤ →
      (SimulatedAnnealingSolver.solve p r).bestConformation.energy ≠ ⊤ ∧
        EnergyCalculator.hasSelfIntersection
          (SimulatedAnnealingSolver.solve p r).bestConformation.positions
          = false) := by
  constructor
  · intro cur new tempPositive acceptBit h
    unfold SimulatedAnnealingSolver.acceptMove at h
    by_cases hlt : new < cur
    · exact ne_top_of_lt hlt
    · rw [if_neg hlt] at h
      by_cases htp : tempPositive = true
      · rw [if_pos htp] at h
        by_cases hnt : new = ⊤
        · rw [if_pos hnt] at h
          cases h
        · exact hnt
      · rw [if_neg htp] at h
        cases h
  · intro p r hfin
    have hsolve : (SimulatedAnnealingSolver.solve p r).bestConformation
        = (SimulatedAnnealingSolver.saLoop p.sequence r.iter 1
            p.maxIterations
            ⟨SimulatedAnnealingSolver.saInit p r,
              SimulatedAnnealingSolver.saInit p r,
              [⟨0, (SimulatedAnnealingSolver.saInit p r).energy,
                (SimulatedAnnealingSolver.saInit p r).energy⟩]⟩).best := rfl
    have hle := SimulatedAnnealingSolver.saLoop_best_le p.sequence r.iter
      p.maxIterations 1
      ⟨SimulatedAnnealingSolver.saInit p r,
        SimulatedAnnealingSolver.saInit p r,
        [⟨0, (SimulatedAnnealingSolver.saInit p r).energy,
          (SimulatedAnnealingSolver.saInit p r).energy⟩]⟩
    have hwf := SimulatedAnnealingSolver.saLoop_isConf p.sequence r.iter
      p.maxIterations 1
      ⟨SimulatedAnnealingSolver.saInit p r,
        SimulatedAnnealingSolver.saInit p r,
        [⟨0, (SimulatedAnnealingSolver.saInit p r).energy,
          (SimulatedAnnealingSolver.saInit p r).energy⟩]⟩
      ⟨⟨_, rfl⟩, ⟨_, rfl⟩⟩
    rw [hsolve]
    have hne : (SimulatedAnnealingSolver.saLoop p.sequence r.iter 1
        p.maxIterations
        ⟨SimulatedAnnealingSolver.saInit p r,
          SimulatedAnnealingSolver.saInit p r,
          [⟨0, (SimulatedAnnealingSolver.saInit p r).energy,
            (SimulatedAnnealingSolver.saInit p r).energy⟩]⟩).best.energy
        ≠ ⊤ := ne_top_of_le_ne_top hfin hle
    refine ⟨hne, ?_⟩
    obtain ⟨ds, hds⟩ := hwf.2
    rw [hds] at hne ⊢
    exact (SimulatedAnnealingSolver.createConformation_energy_ne_top
      p.sequence ds).mp hne

/-- C3 witness: a 2-residue chain whose single random initial move is `R`
gives a feasible initial conformation; the amended theorem applies. -/
theorem C3_no_infeasible_acceptance_witness :
    (SimulatedAnnealingSolver.saInit
        { sequence := ['H', 'H'], maxIterations := 1 }
        steadyStream).energy ≠ ⊤ ∧
    ((SimulatedAnnealingSolver.solve
        { sequence := ['H', 'H'], maxIterations := 1 }
        steadyStream).bestConformation.energy ≠ ⊤ ∧
      EnergyCalculator.hasSelfIntersection
        (SimulatedAnnealingSolver.solve
          { sequence := ['H', 'H'], maxIterations := 1 }
          steadyStream).bestConformation.positions = false) :=
  ⟨by decide,
    C3_no_infeasible_acceptance.2
      { sequence := ['H', 'H'], maxIterations := 1 } steadyStream
      (by decide)⟩

lemma saLoop_congr (sequence : List Char) (s1 s2 : ℕ → IterOracle) :
    ∀ (fuel iteration : ℕ) (st : SimulatedAnnealingSolver.SAState),
      (∀ k, iteration ≤ k → k < iteration + fuel → s1 k = s2 k) →
      SimulatedAnnealingSolver.saLoop sequence s1 iteration fuel st
        = SimulatedAnnealingSolver.saLoop sequence s2 iteration fuel st := by
  intro fuel
  induction fuel with
  | zero => intro it st _; rfl
  | succ n ih =>
    intro it st h
    have hit : s1 it = s2 it := h it (le_refl it) (by omega)
    rw [SimulatedAnnealingSolver.saLoop, SimulatedAnnealingSolver.saLoop,
      hit]
    split
    · rfl
    · exact ih (it + 1) _ (fun k hk1 hk2 => h k (by omega) (by omega))

/-- C9 counterexample: the claim fails as stated.  `SolverParameters`
(src/lib/solvers/types.ts, lines 28-32) has fields `maxIterations`,
`sequence` and `initialDirections` only — no random seed exists anywhere
in the parameter surface — and every stochastic choice is an ambient
unseeded `Math.random()` call.  Two runs with the identical parameter
record (sequence `HH`, zero iterations) but different ambient random
draws return different best conformations. -/
theorem C9_counterexample_not_reproducible :
    (SimulatedAnnealingSolver.solve
        { sequence := ['H', 'H'], maxIterations := 0 }
        steadyStream).bestConformation
      ≠ (SimulatedAnnealingSolver.solve
          { sequence := ['H', 'H'], maxIterations := 0 }
          leftStream).bestConformation := by
  decide

/-- C9 amended: a run is a deterministic function of the parameters and
the random draws it consumes: two runs with the same parameters whose
streams agree on the initial-conformation picks (indices below
`sequence.length - 1`) and on the per-iteration oracles for iterations
`1 .. maxIterations` return identical results.  Reproducibility therefore
requires reproducing the random stream; the parameters offer no seed to do
so. -/
theorem C9_deterministic_given_stream :
    ∀ (p : SAParams) (r1 r2 : RandomStream),
      (∀ i, i < p.sequence.length - 1 → r1.initPick i = r2.initPick i) →
      (∀ k, 1 ≤ k → k ≤ p.maxIterations → r1.iter k = r2.iter k) →
      SimulatedAnnealingSolver.solve p r1
        = SimulatedAnnealingSolver.solve p r2 := by
  intro p r1 r2 hinit hiter
  have hd : BaseSolver.generateRandomDirections p.sequence r1.initPick
      = BaseSolver.generateRandomDirections p.sequence r2.initPick := by
    unfold BaseSolver.generateRandomDirections
    apply List.map_congr_left
    intro i hi
    rw [hinit i (List.mem_range.mp hi)]
  have hinitconf : SimulatedAnnealingSolver.saInit p r1
      = SimulatedAnnealingSolver.saInit p r2 := by
    unfold SimulatedAnnealingSolver.saInit
    rw [hd]
  have hloop := saLoop_congr p.sequence r1.iter r2.iter p.maxIterations 1
    ⟨SimulatedAnnealingSolver.saInit p r2,
      SimulatedAnnealingSolver.saInit p r2,
      [⟨0, (SimulatedAnnealingSolver.saInit p r2).energy,
        (SimulatedAnnealingSolver.saInit p r2).energy⟩]⟩
    (fun k hk1 hk2 => hiter k hk1 (by omega))
  show (⟨(SimulatedAnnealingSolver.saLoop p.sequence r1.iter 1
      p.maxIterations
      ⟨SimulatedAnnealingSolver.saInit p r1,
        SimulatedAnnealingSolver.saInit p r1,
        [⟨0, (SimulatedAnnealingSolver.saInit p r1).energy,
          (SimulatedAnnealingSolver.saInit p r1).energy⟩]⟩).best, _, _⟩ :
      SolverResult) = _
  rw [hinitconf, hloop]
  rfl

/-- C9 witness: for the 2-residue, zero-iteration parameter setting,
`steadyTailStream` agrees with `steadyStream` on the one initial pick that
is consumed (and nowhere else), and the two runs coincide. -/
theorem C9_deterministic_given_stream_witness :
    (∀ i, i < (['H', 'H'] : List Char).length - 1 →
      steadyStream.initPick i = steadyTailStream.initPick i) ∧
    SimulatedAnnealingSolver.solve
        { sequence := ['H', 'H'], maxIterations := 0 } steadyStream
      = SimulatedAnnealingSolver.solve
          { sequence := ['H', 'H'], maxIterations := 0 } steadyTailStream :=
  ⟨by decide,
    C9_deterministic_given_stream
      { sequence := ['H', 'H'], maxIterations := 0 }
      steadyStream steadyTailStream (by decide)
      (fun k hk1 hk2 => absurd (le_trans hk1 hk2) (by decide))⟩

set_option maxRecDepth 8000 in
/-- C10: `solve` always reports `totalIterations = maxIterations`
(src/lib/solvers/simulated-annealing.ts, line 80), whatever the random
stream and however early the temperature-based break fires; the number of
iterations actually executed never appears in the result.  The two
concrete conjuncts exhibit a run that broke at iteration 1 (its history
holds only the iteration-0 sample) and a full 20-iteration run (samples at
0, 10, 20) — both report 20. -/
theorem C10_totalIterations_is_maxIterations :
    (∀ (p : SAParams) (r : RandomStream),
      (SimulatedAnnealingSolver.solve p r).totalIterations
        = p.maxIterations) ∧
    (SimulatedAnnealingSolver.solve
        { sequence := ['H', 'H'], maxIterations := 20 }
        earlyStopStream).energyHistory.length = 1 ∧
    (SimulatedAnnealingSolver.solve
        { sequence := ['H', 'H'], maxIterations := 20 }
        earlyStopStream).totalIterations = 20 ∧
    (SimulatedAnnealingSolver.solve
        { sequence := ['H', 'H'], maxIterations := 20 }
        steadyStream).energyHistory.length = 3 ∧
    (SimulatedAnnealingSolver.solve
        { sequence := ['H', 'H'], maxIterations := 20 }
        steadyStream).totalIterations = 20 := by
  refine ⟨fun p r => rfl, ?_, ?_, ?_, ?_⟩
  · decide
  · decide
  · decide
  · decide

/-! ### Rate limiter

`src/unnamed/part_013` (`RateLimiter`).  Timestamps are `Date.now()`
milliseconds, modelled as ℕ; the store object keyed by identifier strings
is modelled as a function `String → Option RateLimitEntry`.  `remaining`
is an ℤ because the source computes `maxRequests - 1` /
`maxRequests - count` as plain JS numbers. -/

structure RateLimitConfig where
  windowMs : ℕ
  maxRequests : ℕ
deriving DecidableEq, Repr

structure RateLimitEntry where
  count : ℕ
  resetTime : ℕ
deriving DecidableEq, Repr

def RateLimitStore := String → Option RateLimitEntry

structure CheckResult where
  allowed : Bool
  remaining : ℤ
  resetTime : ℕ
deriving DecidableEq, Repr

namespace RateLimiter

/-- `RateLimiter.check` (src/unnamed/part_013, lines 35-75): lazily delete
an expired entry for this identifier (`resetTime <= now`), then either
create a fresh counter (`count = 1`, `resetTime = now + windowMs`), reject
when `count >= maxRequests`, or increment and allow. -/
def check (cfg : RateLimitConfig) (store : RateLimitStore)
    (identifier : String) (now : ℕ) : CheckResult × RateLimitStore :=
  let entry : Option RateLimitEntry :=
    match store identifier with
    | some e => if e.resetTime ≤ now then none else some e
    | none => none
  match entry with
  | none =>
    let e : RateLimitEntry := ⟨1, now + cfg.windowMs⟩
    (⟨true, (cfg.maxRequests : ℤ) - 1, e.resetTime⟩,
      fun k => if k = identifier then some e else store k)
  | some e =>
    if cfg.maxRequests ≤ e.count then
      (⟨false, 0, e.resetTime⟩, store)
    else
      let e' : RateLimitEntry := ⟨e.count + 1, e.resetTime⟩
      (⟨true, (cfg.maxRequests : ℤ) - (e.count + 1 : ℕ), e'.resetTime⟩,
        fun k => if k = identifier then some e' else store k)

/-- A sequence of `check` calls at the given times for one identifier. -/
def runCalls (cfg : RateLimitConfig) (identifier : String) :
    List ℕ → RateLimitStore → List CheckResult × RateLimitStore
  | [], store => ([], store)
  | t :: ts, store =>
    let cr := check cfg store identifier t
    let rest := runCalls cfg identifier ts cr.2
    (cr.1 :: rest.1, rest.2)

/-- No live window for this identifier at time `t`: either no entry, or an
entry whose reset time has already been reached (which the next `check`
lazily deletes). -/
def freshAt (store : RateLimitStore) (identifier : String) (t : ℕ) : Prop :=
  ∀ e, store identifier = some e → e.resetTime ≤ t

lemma check_fresh (cfg : RateLimitConfig) (store : RateLimitStore)
    (identifier : String) (now : ℕ)
    (h : freshAt store identifier now) :
    check cfg store identifier now
      = (⟨true, (cfg.maxRequests : ℤ) - 1, now + cfg.windowMs⟩,
          fun k => if k = identifier then some ⟨1, now + cfg.windowMs⟩
            else store k) := by
  unfold check
  rcases hs : store identifier with _ | e
  · rfl
  · have he : e.resetTime ≤ now := h e hs
    simp [hs, he]

lemma check_live_increment (cfg : RateLimitConfig) (store : RateLimitStore)
    (identifier : String) (now : ℕ) (c rt : ℕ)
    (hs : store identifier = some ⟨c, rt⟩) (hlive : now < rt)
    (hroom : c < cfg.maxRequests) :
    check cfg store identifier now
      = (⟨true, (cfg.maxRequests : ℤ) - (c + 1 : ℕ), rt⟩,
          fun k => if k = identifier then some ⟨c + 1, rt⟩ else store k) := by
  unfold check
  have hnl : ¬ rt ≤ now := Nat.not_le_of_lt hlive
  have hnc : ¬ cfg.maxRequests ≤ c := Nat.not_le_of_lt hroom
  simp [hs, hnl, hnc]

lemma check_live_reject (cfg : RateLimitConfig) (store : RateLimitStore)
    (identifier : String) (now : ℕ) (c rt : ℕ)
    (hs : store identifier = some ⟨c, rt⟩) (hlive : now < rt)
    (hfull : cfg.maxRequests ≤ c) :
    check cfg store identifier now = (⟨false, 0, rt⟩, store) := by
  unfold check
  have hnl : ¬ rt ≤ now := Nat.not_le_of_lt hlive
  simp [hs, hnl, hfull]

lemma runCalls_window (cfg : RateLimitConfig) (identifier : String) :
    ∀ (ts : List ℕ) (store : RateLimitStore) (c rt : ℕ),
      store identifier = some ⟨c, rt⟩ →
      (∀ u ∈ ts, u < rt) →
      c + ts.length ≤ cfg.maxRequests →
      (∀ res ∈ (runCalls cfg identifier ts store).1, res.allowed = true) ∧
      (runCalls cfg identifier ts store).2 identifier
        = some ⟨c + ts.length, rt⟩ := by
  intro ts
  induction ts with
  | nil =>
    intro store c rt hs _ _
    constructor
    · intro res hres
      simp [runCalls] at hres
    · simpa [runCalls] using hs
  | cons t ts ih =>
    intro store c rt hs hin hroom
    have hlive : t < rt := hin t (List.mem_cons_self t ts)
    have hroomc : c < cfg.maxRequests := by
      have := hroom
      simp only [List.length_cons] at this
      omega
    have hstep := check_live_increment cfg store identifier t c rt hs hlive
      hroomc
    have hs' : (check cfg store identifier t).2 identifier
        = some ⟨c + 1, rt⟩ := by
      rw [hstep]
      simp
    have hrest := ih (check cfg store identifier t).2 (c + 1) rt hs'
      (fun u hu => hin u (List.mem_cons_of_mem t hu))
      (by simp only [List.length_cons] at hroom; omega)
    constructor
    · intro res hres
      simp only [runCalls] at hres
      rcases List.mem_cons.mp hres with hres | hres
      · rw [hres, hstep]
      · exact hrest.1 res hres
    · simp only [runCalls]
      rw [hrest.2]
      congr 2
      simp only [List.length_cons]
      omega

end RateLimiter

/-- C4: fixed-window rate limiting behaves as specified.  (1) A check with
no live window creates a counter with `resetTime = now + windowMs` and is
allowed.  (2) From such a state, with `maxRequests = N ≥ 1`, a run of `N`
calls within the window (each strictly before the reset time) is allowed
throughout, and any further call before the reset time is rejected with
`remaining = 0`.  (3) Once the current time passes the stored reset time,
the next check starts a fresh window (count 1, new reset time), so the
same `N`-call budget applies again via (2). -/
theorem C4_fixed_window_rate_limiting :
    (∀ (cfg : RateLimitConfig) (store : RateLimitStore)
        (identifier : String) (t0 : ℕ),
      RateLimiter.freshAt store identifier t0 →
      (RateLimiter.check cfg store identifier t0).1.allowed = true ∧
      (RateLimiter.check cfg store identifier t0).1.resetTime
        = t0 + cfg.windowMs ∧
      (RateLimiter.check cfg store identifier t0).2 identifier
        = some ⟨1, t0 + cfg.windowMs⟩) ∧
    (∀ (cfg : RateLimitConfig) (store : RateLimitStore)
        (identifier : String) (t0 : ℕ) (ts : List ℕ),
      RateLimiter.freshAt store identifier t0 →
      1 ≤ cfg.maxRequests →
      ts.length + 1 = cfg.maxRequests →
      (∀ u ∈ ts, u < t0 + cfg.windowMs) →
      (∀ res ∈ (RateLimiter.runCalls cfg identifier (t0 :: ts) store).1,
        res.allowed = true) ∧
      (∀ u, u < t0 + cfg.windowMs →
        (RateLimiter.check cfg
            (RateLimiter.runCalls cfg identifier (t0 :: ts) store).2
            identifier u).1.allowed = false ∧
        (RateLimiter.check cfg
            (RateLimiter.runCalls cfg identifier (t0 :: ts) store).2
            identifier u).1.remaining = 0)) ∧
    (∀ (cfg : RateLimitConfig) (store : RateLimitStore)
        (identifier : String) (e : RateLimitEntry) (now : ℕ),
      store identifier = some e → e.resetTime < now →
      (RateLimiter.check cfg store identifier now).1.allowed = true ∧
      (RateLimiter.check cfg store identifier now).2 identifier
        = some ⟨1, now + cfg.windowMs⟩) := by
  refine ⟨?_, ?_, ?_⟩
  · intro cfg store identifier t0 hfresh
    rw [RateLimiter.check_fresh cfg store identifier t0 hfresh]
    refine ⟨rfl, rfl, ?_⟩
    simp
  · intro cfg store identifier t0 ts hfresh hN hlen hin
    have hstep := RateLimiter.check_fresh cfg store identifier t0 hfresh
    have hs1 : (RateLimiter.check cfg store identifier t0).2 identifier
        = some ⟨1, t0 + cfg.windowMs⟩ := by
      rw [hstep]
      simp
    have hwin := RateLimiter.runCalls_window cfg identifier ts
      (RateLimiter.check cfg store identifier t0).2 1 (t0 + cfg.windowMs)
      hs1 hin (by omega)
    constructor
    · intro res hres
      simp only [RateLimiter.runCalls] at hres
      rcases List.mem_cons.mp hres with hres | hres
      · rw [hres, hstep]
      · exact hwin.1 res hres
    · intro u hu
      have hsN : (RateLimiter.runCalls cfg identifier (t0 :: ts) store).2
          identifier = some ⟨1 + ts.length, t0 + cfg.windowMs⟩ := by
        simp only [RateLimiter.runCalls]
        exact hwin.2
      have hrej := RateLimiter.check_live_reject cfg
        (RateLimiter.runCalls cfg identifier (t0 :: ts) store).2 identifier
        u (1 + ts.length) (t0 + cfg.windowMs) hsN hu (by omega)
      rw [hrej]
      exact ⟨rfl, rfl⟩
  · intro cfg store identifier e now hs hpassed
    have hfresh : RateLimiter.freshAt store identifier now := by
      intro e' hs'
      rw [hs] at hs'
      cases hs'
      exact Nat.le_of_lt hpassed
    rw [RateLimiter.check_fresh cfg store identifier now hfresh]
    constructor
    · rfl
    · simp

/-- C4 witness: window 10 ms, `maxRequests = 2`, empty store: the calls at
times 0 and 3 are allowed, a further call at time 5 is rejected with
`remaining = 0`, and after the reset time has passed a call at time 11
opens a fresh window. -/
theorem C4_fixed_window_rate_limiting_witness :
    ((∀ res ∈ (RateLimiter.runCalls ⟨10, 2⟩ "u" [0, 3]
        (fun _ => none)).1, res.allowed = true) ∧
      (∀ u, u < 0 + 10 →
        (RateLimiter.check ⟨10, 2⟩
            (RateLimiter.runCalls ⟨10, 2⟩ "u" [0, 3] (fun _ => none)).2
            "u" u).1.allowed = false ∧
        (RateLimiter.check ⟨10, 2⟩
            (RateLimiter.runCalls ⟨10, 2⟩ "u" [0, 3] (fun _ => none)).2
            "u" u).1.remaining = 0)) ∧
    ((RateLimiter.check ⟨10, 2⟩
        (fun _ => some ⟨2, 10⟩) "u" 11).1.allowed = true ∧
      (RateLimiter.check ⟨10, 2⟩
          (fun _ => some ⟨2, 10⟩) "u" 11).2 "u" = some ⟨1, 21⟩) :=
  ⟨C4_fixed_window_rate_limiting.2.1 ⟨10, 2⟩ (fun _ => none) "u" 0 [3]
      (fun e h => nomatch h) (by decide) (by decide)
      (by intro u hu; simp only [List.mem_singleton] at hu; subst hu
          decide),
    C4_fixed_window_rate_limiting.2.2 ⟨10, 2⟩ (fun _ => some ⟨2, 10⟩) "u"
      ⟨2, 10⟩ 11 rfl (by decide)⟩

/-! ### Job record lifecycle

`src/unnamed/part_011` (`JobQueueService`): the database writes performed
on one Job record by `submitJob` (initial state), the Bull event handlers
in `setupEventHandlers` (`active`, `progress`, `completed`, `failed`,
lines 334-406, via `updateJobProgress`, lines 304-329) and `cancelJob`
(lines 236-268).  Each write is modelled exactly as its
`findByIdAndUpdate` / `save` field set; none of them inspects the current
status first.  Timestamps carry the `new Date()` of the write. -/

inductive JobStatus where
  | queued | running | completed | failed | cancelled
deriving DecidableEq, Repr

/-- The Job record fields relevant to the lifecycle claims
(src/lib/models/Job.ts): status, progress, optional result and error,
optional start/completion timestamps. -/
structure JobRec where
  status : JobStatus
  progress : ℕ
  result : Option SolverResult
  error : Option String
  startedAt : Option ℕ
  completedAt : Option ℕ
deriving DecidableEq

/-- The record created by `submitJob` (src/unnamed/part_011, lines
136-146): `status: QUEUED, progress: 0`, no result, no error. -/
def submittedJob : JobRec := ⟨.queued, 0, none, none, none, none⟩

/-- One database write on a Job record.  `onActive` and `onProgress` go
through `updateJobProgress`, whose payload never carries `startedAt`, so
the `!progress.startedAt` guard always fires and `startedAt` is set on
every RUNNING write. -/
inductive JobOp where
  | onActive
  | onProgress (percent : ℕ)
  | onCompleted (result : SolverResult)
  | onFailed (message : String)
  | cancel
deriving DecidableEq

/-- Applying one write at time `now`, field-for-field as the source sets
them: the `completed` handler sets result/progress/completedAt but never
clears `error`; the `failed` handler sets `error` but never clears
`result`; `cancelJob` sets `status: CANCELLED` and `completedAt`
unconditionally — it checks the current status only to decide whether to
remove the Bull job, not before overwriting the record. -/
def applyOp (now : ℕ) (j : JobRec) : JobOp → JobRec
  | .onActive =>
    { j with status := .running, progress := 0, startedAt := some now }
  | .onProgress percent =>
    { j with
      status := .running
      progress := percent
      startedAt := some now }
  | .onCompleted result =>
    { j with
      status := .completed
      progress := 100
      result := some result
      completedAt := some now }
  | .onFailed message =>
    { j with
      status := .failed
      error := some message
      completedAt := some now }
  | .cancel =>
    { j with status := .cancelled, completedAt := some now }

/-- A sequence of timestamped writes applied to a record. -/
def applyOps (j : JobRec) : List (ℕ × JobOp) → JobRec
  | [] => j
  | (now, op) :: rest => applyOps (applyOp now j op) rest

/-- A concrete solver result to stand in a completed record. -/
def someResult : SolverResult :=
  ⟨EnergyCalculator.createConformation ['H', 'H'] [.R], [], 0⟩

/-- C5 failing input: the state machine admits transitions out of terminal
states.  A job that completed (status COMPLETED after the `completed`
handler) and then receives `cancelJob` is overwritten to CANCELLED:
`cancelJob` (src/unnamed/part_011, lines 236-268) sets
`job.status = JobStatus.CANCELLED` without checking whether the current
status is terminal. -/
theorem C5_cancel_overwrites_completed :
    (applyOps submittedJob [(5, .onCompleted someResult)]).status
        = .completed ∧
    (applyOps submittedJob
        [(5, .onCompleted someResult), (9, .cancel)]).status
        = .cancelled := by
  constructor
  · rfl
  · rfl

/-- C6 counterexample: a job cancelled straight from QUEUED is terminal
(CANCELLED) with *neither* result nor error populated — `cancelJob` sets
only the status and `completedAt` — so the exactly-one-of-{result, error}
rule fails for CANCELLED. -/
theorem C6_counterexample_cancelled_has_neither :
    (applyOps submittedJob [(3, .cancel)]).status = .cancelled ∧
    (applyOps submittedJob [(3, .cancel)]).result = none ∧
    (applyOps submittedJob [(3, .cancel)]).error = none := by
  refine ⟨rfl, rfl, rfl⟩

/-- C6 amended: after any sequence of writes starting from the submitted
record, a COMPLETED record has a result populated and a FAILED record has
an error populated (each terminal write sets its own outcome field), but a
record none of whose writes were `completed`/`failed` events — e.g. one
cancelled before ever completing or failing — has neither result nor
error; the exactly-one rule holds for COMPLETED and FAILED only in runs
where the other outcome field was never written, and fails for CANCELLED. -/
theorem C6_terminal_outcome_fields :
    ∀ (ops : List (ℕ × JobOp)),
      ((applyOps submittedJob ops).status = .completed →
        ((applyOps submittedJob ops).result).isSome = true) ∧
      ((applyOps submittedJob ops).status = .failed →
        ((applyOps submittedJob ops).error).isSome = true) ∧
      ((∀ p ∈ ops, (∀ r, p.2 ≠ .onCompleted r) ∧ (∀ m, p.2 ≠ .onFailed m)) →
        (applyOps submittedJob ops).result = none ∧
        (applyOps submittedJob ops).error = none) := by
  have hgen : ∀ (ops : List (ℕ × JobOp)) (j : JobRec),
      (j.status = .completed → j.result.isSome = true) →
      (j.status = .failed → j.error.isSome = true) →
      ((applyOps j ops).status = .completed →
        ((applyOps j ops).result).isSome = true) ∧
      ((applyOps j ops).status = .failed →
        ((applyOps j ops).error).isSome = true) := by
    intro ops
    induction ops with
    | nil => intro j h1 h2; exact ⟨h1, h2⟩
    | cons p rest ih =>
      intro j h1 h2
      rcases p with ⟨now, op⟩
      cases op with
      | onActive =>
        exact ih _ (fun h => nomatch h) (fun h => nomatch h)
      | onProgress percent =>
        exact ih _ (fun h => nomatch h) (fun h => nomatch h)
      | onCompleted result =>
        exact ih _ (fun _ => rfl) (fun h => nomatch h)
      | onFailed message =>
        exact ih _ (fun h => nomatch h) (fun _ => rfl)
      | cancel =>
        exact ih _ (fun h => nomatch h) (fun h => nomatch h)
  have hnone : ∀ (ops : List (ℕ × JobOp)) (j : JobRec),
      (∀ p ∈ ops, (∀ r, p.2 ≠ .onCompleted r) ∧ (∀ m, p.2 ≠ .onFailed m)) →
      j.result = none → j.error = none →
      (applyOps j ops).result = none ∧ (applyOps j ops).error = none := by
    intro ops
    induction ops with
    | nil => intro j _ h1 h2; exact ⟨h1, h2⟩
    | cons p rest ih =>
      intro j hops h1 h2
      rcases p with ⟨now, op⟩
      have hp := hops (now, op) (List.mem_cons_self _ _)
      have hrest := fun q hq => hops q (List.mem_cons_of_mem _ hq)
      cases op with
      | onActive => exact ih _ hrest h1 h2
      | onProgress percent => exact ih _ hrest h1 h2
      | onCompleted result => exact absurd rfl (hp.1 result)
      | onFailed message => exact absurd rfl (hp.2 message)
      | cancel => exact ih _ hrest h1 h2
  intro ops
  have h := hgen ops submittedJob (fun h => nomatch h) (fun h => nomatch h)
  exact ⟨h.1, h.2, fun hops => hnone ops submittedJob hops rfl rfl⟩

/-- C6 witness: the amended theorem applied to the one-write run that
completes the job: the COMPLETED record has a result. -/
theorem C6_terminal_outcome_fields_witness :
    (applyOps submittedJob [(5, .onCompleted someResult)]).status
        = .completed ∧
    ((applyOps submittedJob
        [(5, .onCompleted someResult)]).result).isSome = true :=
  ⟨rfl, (C6_terminal_outcome_fields [(5, .onCompleted someResult)]).1 rfl⟩

/-! ### Retention sweep

`src/unnamed/part_012` (`JobCleanupService.performCleanup`).  Timestamps
in milliseconds as ℤ.  Retention periods from the constructor config
(lines 38-43): completed 7 days, failed 3, cancelled 1, rosetta 30.
MongoDB `deleteMany({status, completedAt: {$lt: cutoff}})` matches only
documents that have a `completedAt` strictly below the cutoff. -/

inductive AlgorithmType where
  | monteCarlo | simulatedAnnealing | geneticAlgorithm
  | evolutionStrategies | evolutionaryProgramming | rosetta
deriving DecidableEq, Repr

structure CleanupJob where
  algorithm : AlgorithmType
  status : JobStatus
  completedAt : Option ℤ
deriving DecidableEq, Repr

def msPerDay : ℤ := 86400000

namespace JobCleanupService

/-- The `deleteMany` filter of `cleanupJobsByStatus` (src/unnamed/part_012,
lines 153-169): same status and `completedAt < cutoff`.  Note there is no
algorithm filter. -/
def matchesStatusSweep (status : JobStatus) (cutoff : ℤ) (j : CleanupJob) :
    Bool :=
  j.status == status &&
    (match j.completedAt with
     | some t => decide (t < cutoff)
     | none => false)

def cleanupJobsByStatus (status : JobStatus) (retentionDays : ℕ) (now : ℤ)
    (jobs : List CleanupJob) : ℕ × List CleanupJob :=
  let cutoff := now - retentionDays * msPerDay
  ((jobs.filter (matchesStatusSweep status cutoff)).length,
    jobs.filter (fun j => !(matchesStatusSweep status cutoff j)))

/-- The `deleteMany` filter of `cleanupRosettaJobs` (src/unnamed/part_012,
lines 174-191): algorithm `rosetta` and `completedAt < cutoff`, with no
status filter ("regardless of status" per the source comment). -/
def matchesRosettaSweep (cutoff : ℤ) (j : CleanupJob) : Bool :=
  j.algorithm == .rosetta &&
    (match j.completedAt with
     | some t => decide (t < cutoff)
     | none => false)

def cleanupRosettaJobs (now : ℤ) (jobs : List CleanupJob) :
    ℕ × List CleanupJob :=
  let cutoff := now - (30 : ℕ) * msPerDay
  ((jobs.filter (matchesRosettaSweep cutoff)).length,
    jobs.filter (fun j => !(matchesRosettaSweep cutoff j)))

structure CleanupCounts where
  completed : ℕ
  failed : ℕ
  cancelled : ℕ
  rosetta : ℕ
  total : ℕ
deriving DecidableEq, Repr

/-- `performCleanup` (src/unnamed/part_012, lines 94-148): the four
deletion passes run in order — completed (7 days), failed (3), cancelled
(1), then the rosetta pass (30 days, any status). -/
def performCleanup (now : ℤ) (jobs : List CleanupJob) :
    CleanupCounts × List CleanupJob :=
  let r1 := cleanupJobsByStatus .completed 7 now jobs
  let r2 := cleanupJobsByStatus .failed 3 now r1.2
  let r3 := cleanupJobsByStatus .cancelled 1 now r2.2
  let r4 := cleanupRosettaJobs now r3.2
  (⟨r1.1, r2.1, r3.1, r4.1, r1.1 + r2.1 + r3.1 + r4.1⟩, r4.2)

end JobCleanupService

/-- C7 failing input: a COMPLETED job of the rosetta algorithm whose
completion timestamp is 10 days old.  The configured rosetta retention is
30 days ("Keep Rosetta jobs for 30 days (they're more valuable)",
src/unnamed/part_012 line 42), yet the sweep deletes this job: the
completed-status pass (7-day threshold, lines 113-116) carries no
algorithm filter, so it removes rosetta jobs too — the deletion is counted
under `completed`, not `rosetta`. -/
theorem C7_rosetta_deleted_by_status_pass :
    JobCleanupService.performCleanup (1000 * msPerDay)
        [⟨.rosetta, .completed, some (990 * msPerDay)⟩]
      = (⟨1, 0, 0, 0, 1⟩, []) := by
  decide

/-! ### Submission and solve routes

`src/app/api/jobs/route.ts` (POST, lines 35-151) and the `/api/solve`
route (src/unnamed/part_008).  We model the decision made after session
authentication; the two rate-limiter verdicts enter as booleans. -/

inductive JobsPostOutcome where
  | rateLimited
  | badRequest (message : String)
  | submitted (job : JobRec)
deriving DecidableEq

/-- `POST /api/jobs` (src/app/api/jobs/route.ts, lines 42-122), in source
order: general rate limit; missing-field check (`!algorithm || !sequence`
— empty strings are falsy); stricter rosetta rate limit; the sequence
regex `^[HP]+$`; the minimum length 2; then `submitJob`, which creates the
QUEUED Job record. -/
def jobsPost (generalAllowed rosettaAllowed : Bool) (algorithm : String)
    (sequence : List Char) : JobsPostOutcome :=
  if !generalAllowed then .rateLimited
  else if algorithm == "" || sequence.isEmpty then
    .badRequest "Missing required fields: algorithm, sequence"
  else if algorithm == "rosetta" && !rosettaAllowed then .rateLimited
  else if !(!sequence.isEmpty &&
      sequence.all (fun c => c == 'H' || c == 'P')) then
    .badRequest "Invalid sequence. Must contain only H and P characters"
  else if sequence.length < 2 then
    .badRequest "Sequence must have at least 2 residues"
  else .submitted submittedJob

/-- Modelled from the spec: `ProteinSolverService.validateSequence`
(`src/lib/services/protein-solver-service` is not in the source tree) —
"sequence non-empty and over alphabet {H,P}". -/
def validateSequence (sequence : List Char) : Bool :=
  !sequence.isEmpty && sequence.all (fun c => c == 'H' || c == 'P')

/-- Modelled from the spec: `ProteinSolverService.validateDirections`
(`src/lib/services/protein-solver-service` is not in the source tree) —
"if an initial move list is supplied, its length must equal
`sequence.length - 1` and each symbol must be a valid lattice direction";
the move alphabet is `["L", "R", "U", "D"]`. -/
def validateDirections (directions : List String) (sequenceLength : ℕ) :
    Bool :=
  directions.length == sequenceLength - 1 &&
    directions.all (fun d => ["L", "R", "U", "D"].contains d)

inductive SolveRouteOutcome where
  | badRequest (message : String)
  | solved
deriving DecidableEq

/-- The `/api/solve` POST route (src/unnamed/part_008): validate the
sequence, then — only if an initial move list was supplied — validate it,
and only then invoke the solver service. -/
def solvePost (sequence : List Char) (directions : Option (List String)) :
    SolveRouteOutcome :=
  if !(validateSequence sequence) then .badRequest "Invalid sequence"
  else
    match directions with
    | some ds =>
      if !(validateDirections ds sequence.length) then
        .badRequest "Invalid directions"
      else .solved
    | none => .solved

lemma jobsPost_submitted_only_if_valid (generalAllowed rosettaAllowed : Bool)
    (algorithm : String) (sequence : List Char) (j : JobRec)
    (h : jobsPost generalAllowed rosettaAllowed algorithm sequence
      = .submitted j) :
    (∀ c ∈ sequence, c = 'H' ∨ c = 'P') ∧ 2 ≤ sequence.length := by
  unfold jobsPost at h
  split at h
  · exact absurd h (by simp)
  split at h
  · exact absurd h (by simp)
  split at h
  · exact absurd h (by simp)
  split at h
  · exact absurd h (by simp)
  split at h
  · exact absurd h (by simp)
  rename_i hga hmiss hros hreg hlen
  have hall : (!sequence.isEmpty &&
      sequence.all (fun c => c == 'H' || c == 'P')) = true := by
    revert hreg
    cases (!sequence.isEmpty &&
      sequence.all (fun c => c == 'H' || c == 'P')) <;> simp
  rw [Bool.and_eq_true] at hall
  refine ⟨?_, by omega⟩
  intro c hc
  have hc' := List.all_eq_true.mp hall.2 c hc
  simp only [Bool.or_eq_true, beq_iff_eq] at hc'
  exact hc'

/-- C8 counterexample: the claim's fail-fast half is false on the solver.
With sequence `HH` (so a valid initial move list must have length 1) and
`initialDirections = [L, L, L]`, `SimulatedAnnealingSolver.solve` performs
its iteration and returns a normal result — identical to the run with no
initial list at all, because this solver never reads
`parameters.initialDirections` (src/lib/solvers/simulated-annealing.ts,
lines 85-88). -/
theorem C8_counterexample_solver_ignores_moves :
    (SimulatedAnnealingSolver.solve
        { sequence := ['H', 'H'], maxIterations := 1,
          initialDirections := some [.L, .L, .L] }
        steadyStream).totalIterations = 1 ∧
    (SimulatedAnnealingSolver.solve
        { sequence := ['H', 'H'], maxIterations := 1,
          initialDirections := some [.L, .L, .L] }
        steadyStream).bestConformation.sequence = ['H', 'H'] ∧
    SimulatedAnnealingSolver.solve
        { sequence := ['H', 'H'], maxIterations := 1,
          initialDirections := some [.L, .L, .L] }
        steadyStream
      = SimulatedAnnealingSolver.solve
          { sequence := ['H', 'H'], maxIterations := 1 } steadyStream := by
  refine ⟨rfl, ?_, ?_⟩
  · decide
  · decide

/-- C8 amended: (1) a submission whose sequence has a character outside
{H, P} or length < 2 never creates a Job record, and — when not already
rejected by a rate limiter — is rejected with a synchronous validation
error; (2) the `/api/solve` route invokes the solver only if a supplied
move list has length `sequence.length - 1` with every symbol a valid
direction; but (3) the solver itself performs no such check:
`SimulatedAnnealingSolver.solve` is independent of `initialDirections`. -/
theorem C8_validation_before_submission :
    (∀ (generalAllowed rosettaAllowed : Bool) (algorithm : String)
        (sequence : List Char),
      ((∃ c ∈ sequence, c ≠ 'H' ∧ c ≠ 'P') ∨ sequence.length < 2) →
      (∀ j, jobsPost generalAllowed rosettaAllowed algorithm sequence
        ≠ .submitted j) ∧
      (generalAllowed = true → rosettaAllowed = true →
        ∃ msg, jobsPost generalAllowed rosettaAllowed algorithm sequence
          = .badRequest msg)) ∧
    (∀ (sequence : List Char) (ds : List String),
      solvePost sequence (some ds) = .solved →
      ds.length = sequence.length - 1 ∧
        ∀ d ∈ ds, d ∈ ["L", "R", "U", "D"]) ∧
    (∀ (p : SAParams) (ds : List Direction) (r : RandomStream),
      SimulatedAnnealingSolver.solve
          { p with initialDirections := some ds } r
        = SimulatedAnnealingSolver.solve
            { p with initialDirections := none } r) := by
  refine ⟨?_, ?_, ?_⟩
  · intro generalAllowed rosettaAllowed algorithm sequence hbad
    constructor
    · intro j hsub
      have hval := jobsPost_submitted_only_if_valid generalAllowed
        rosettaAllowed algorithm sequence j hsub
      rcases hbad with ⟨c, hc, hcH, hcP⟩ | hshort
      · rcases hval.1 c hc with h | h
        · exact hcH h
        · exact hcP h
      · omega
    · intro hga hra
      subst hga
      subst hra
      unfold jobsPost
      split
      · rename_i hcc
        exact absurd hcc (by simp)
      split
      · exact ⟨_, rfl⟩
      split
      · rename_i hcc
        exact absurd hcc (by simp)
      split
      · exact ⟨_, rfl⟩
      split
      · exact ⟨_, rfl⟩
      rename_i hga2 hmiss hros hreg hlen
      exfalso
      have hall : (!sequence.isEmpty &&
          sequence.all (fun c => c == 'H' || c == 'P')) = true := by
        revert hreg
        cases (!sequence.isEmpty &&
          sequence.all (fun c => c == 'H' || c == 'P')) <;> simp
      rw [Bool.and_eq_true] at hall
      rcases hbad with ⟨c, hc, hcH, hcP⟩ | hshort
      · have hc' := List.all_eq_true.mp hall.2 c hc
        simp only [Bool.or_eq_true, beq_iff_eq] at hc'
        rcases hc' with h' | h'
        · exact hcH h'
        · exact hcP h'
      · exact hlen hshort
  · intro sequence ds h
    unfold solvePost at h
    split at h
    · exact absurd h (by simp)
    have h' : (if (!validateDirections ds sequence.length) = true then
        SolveRouteOutcome.badRequest "Invalid directions"
      else SolveRouteOutcome.solved) = SolveRouteOutcome.solved := h
    split at h'
    · exact absurd h' (by simp)
    rename_i hvd
    have hv : validateDirections ds sequence.length = true := by
      revert hvd
      cases validateDirections ds sequence.length <;> simp
    unfold validateDirections at hv
    rw [Bool.and_eq_true] at hv
    refine ⟨by simpa using hv.1, ?_⟩
    intro d hd
    have hmem := List.all_eq_true.mp hv.2 d hd
    simpa using hmem
  · intro p ds r
    cases p
    rfl

/-- C8 witness: the sequence `HX` (bad alphabet) is rejected without a Job
record, and the solve route with sequence `HH` and the valid one-move list
`["R"]` reaches the solver; the amended theorem applies at both inputs. -/
theorem C8_validation_before_submission_witness :
    (((∃ c ∈ (['H', 'X'] : List Char), c ≠ 'H' ∧ c ≠ 'P') ∨
        (['H', 'X'] : List Char).length < 2) ∧
      (∀ j, jobsPost true true "simulated-annealing" ['H', 'X']
        ≠ .submitted j) ∧
      (true = true → true = true →
        ∃ msg, jobsPost true true "simulated-annealing" ['H', 'X']
          = .badRequest msg)) ∧
    (solvePost ['H', 'H'] (some ["R"]) = .solved ∧
      (["R"] : List String).length = (['H', 'H'] : List Char).length - 1 ∧
      ∀ d ∈ (["R"] : List String), d ∈ ["L", "R", "U", "D"]) :=
  ⟨⟨by decide,
    (C8_validation_before_submission.1 true true "simulated-annealing"
      ['H', 'X'] (by decide)).1,
    (C8_validation_before_submission.1 true true "simulated-annealing"
      ['H', 'X'] (by decide)).2⟩,
    ⟨by decide,
      C8_validation_before_submission.2.1 ['H', 'H'] ["R"] (by decide)⟩⟩

end ProteinVisualizer
